import Mathlib

/-!
Shallow embedding of the `bdfe` BDF-to-C font exporter command front end
(`main.c`), together with spec-modelled fragments of the conversion engine
(the engine source `bdf.c` and the headers `bdf.h`/`ossd_i2c.h` are not part
of the sources; wherever a claim depends on them the corresponding
definition is modelled from the spec and marked as such in its doc
comment).

The option loop of `main` is embedded faithfully: the checks of one
iteration are sequential `if`s (not `else if`), a value-taking option
(`ascender`, `subset`, `display`) advances the loop index from inside the
iteration so that the remaining checks of the same iteration see the
consumed argument, and the same short form can match several options
(`-a` is tested both for `ascender` and for `all`, `-l` both for `line`
and for `droplast`).
-/

set_option maxRecDepth 4000

/-- Bit flags accumulated by the option loop of `main.c`.  Their numeric
values live in `bdf.h`, which is not among the sources; since the flag word
is only built with `|=` of distinct constants and tested bitwise, it is
modelled as a record of booleans (`display` is the `DISPLAY_FONT` bit
defined in `main.c` itself). -/
structure Flags where
  header : Bool := false
  verbose : Bool := false
  gpl : Bool := false
  native : Bool := false
  rotate : Bool := false
  flip : Bool := false
  droplast : Bool := false
  display : Bool := false
  deriving DecidableEq

/-- The locals of `main` that the option loop updates: `flags`,
`i2c_address` (uint8, default 0x3C), `orientation` (0 or the constant
`OSSD_UPDOWN` from the display driver header, modelled as the boolean
`updown`), `ascender`, and the requested codepoint range `gmin`/`gmax`
(unsigned 32-bit, defaults 32 and 126 from main.c:88). -/
structure ArgState where
  flags : Flags := {}
  i2c_address : Nat := 0x3C
  updown : Bool := false
  ascender : Nat := 0
  gmin : Nat := 32
  gmax : Nat := 126
  deriving DecidableEq

/-- Initial state of the option loop (main.c:83-88). -/
def initState : ArgState := {}

/-- `arg_is` from main.c:51-58: the argument equals the short or the long
form.  Both forms are non-null at every call site in `main`, so the null
guards are not modelled. -/
def arg_is (arg sarg larg : String) : Bool :=
  if arg = sarg then true else if arg = larg then true else false

/-- `isdigit(*s)` on a C string: first character is a decimal digit (an
empty string yields the terminating NUL, which is not a digit). -/
def firstIsDigit (s : String) : Bool :=
  match s.data with
  | [] => false
  | c :: _ => c.isDigit

/-- `isxdigit(c)`. -/
def isXdigitChar (c : Char) : Bool :=
  c.isDigit || (('a' ≤ c) && (c ≤ 'f')) || (('A' ≤ c) && (c ≤ 'F'))

/-- `isxdigit(*s)` on a C string. -/
def firstIsXdigit (s : String) : Bool :=
  match s.data with
  | [] => false
  | c :: _ => isXdigitChar c

/-- Numeric value of a digit in base up to 16 (0 for non-digits, which the
scan loops never feed in). -/
def digitVal (c : Char) : Nat :=
  if c.isDigit then c.toNat - 48
  else if ('a' ≤ c) && (c ≤ 'f') then c.toNat - 87
  else if ('A' ≤ c) && (c ≤ 'F') then c.toNat - 55
  else 0

/-- Digit-run accumulator shared by the `strtoul` models: consume the
maximal leading run of digits, returning the accumulated value and the
rest of the string.  Every call site in `main.c` is guarded by
`isdigit`/`isxdigit` on the first character, so the leading
whitespace/sign handling of the C library function is never exercised and
is not modelled; the claims never reach `ULONG_MAX` clamping either. -/
def strtoulLoop (base : Nat) (isDig : Char → Bool) : Nat → List Char → Nat × List Char
  | val, [] => (val, [])
  | val, c :: cs =>
    if isDig c then strtoulLoop base isDig (val * base + digitVal c) cs else (val, c :: cs)

/-- `strtoul(s, &end, 10)`: value of the leading decimal digit run plus
the rest of the string (the `end` pointer). -/
def strtoul10 (s : List Char) : Nat × List Char :=
  strtoulLoop 10 Char.isDigit 0 s

/-- `strtoul(s, NULL, 16)`: value of the leading hexadecimal digit run,
accepting an optional 0x/0X marker. -/
def strtoul16 (s : List Char) : Nat × List Char :=
  match s with
  | '0' :: 'x' :: rest => strtoulLoop 16 isXdigitChar 0 rest
  | '0' :: 'X' :: rest => strtoulLoop 16 isXdigitChar 0 rest
  | _ => strtoulLoop 16 isXdigitChar 0 s

/-- The `-a`/`ascender` branch (main.c:107-110).  When the current argument
matches and the following argument starts with a decimal digit, that
argument is consumed (`i++`) and parsed with `atoi` into the unsigned
`ascender`; the argument the rest of the iteration sees (`argv` at the
incremented index) then is the consumed one.  The guard reads the next
argument, and when the current argument is the last one that reads the
terminating NULL entry of `argv` — modelled as `none`. -/
def ascStep (st : ArgState) (a : String) (rest : List String) (dr : Nat) :
    Option (ArgState × String × Nat) :=
  if arg_is a ("-a") ("ascender") then
    match rest.drop dr with
    | [] => none
    | next :: _ =>
      if firstIsDigit next then
        some ({ st with ascender := (strtoul10 next.data).1 % 4294967296 }, next, dr + 1)
      else
        some (st, a, dr)
  else some (st, a, dr)

/-- The `-s`/`subset` branch (main.c:115-129): consume the following
argument when it starts with a digit, parse `a-b` with `strtoul`, default
the upper bound to the lower one when no `-` follows, and swap the two
bounds when they arrive reversed. -/
def subsetStep (st : ArgState) (a : String) (rest : List String) (dr : Nat) :
    Option (ArgState × String × Nat) :=
  if arg_is a ("-s") ("subset") then
    match rest.drop dr with
    | [] => none
    | next :: _ =>
      if firstIsDigit next then
        let p := strtoul10 next.data
        let g1 := p.1 % 4294967296
        let g2 :=
          match p.2 with
          | '-' :: tl => (strtoul10 tl).1 % 4294967296
          | _ => g1
        some ({ st with gmin := if g2 < g1 then g2 else g1,
                        gmax := if g2 < g1 then g1 else g2 }, next, dr + 1)
      else
        some (st, a, dr)
  else some (st, a, dr)

/-- The `-d`/`display` branch (main.c:142-150): always set the
`DISPLAY_FONT` flag, then consume the following argument when it starts
with a hex digit and take it as the I2C address if it is non-zero and
below 0x78 (`i2c_address` is uint8, hence the mod 256 on assignment). -/
def displayStep (st : ArgState) (a : String) (rest : List String) (dr : Nat) :
    Option (ArgState × String × Nat) :=
  if arg_is a ("-d") ("display") then
    let st1 := { st with flags := { st.flags with display := true } }
    match rest.drop dr with
    | [] => none
    | next :: _ =>
      if firstIsXdigit next then
        let i2ca := (strtoul16 next.data).1 % 4294967296
        let st2 := if 0 < i2ca ∧ i2ca < 0x78 then { st1 with i2c_address := i2ca % 256 } else st1
        some (st2, next, dr + 1)
      else
        some (st1, a, dr)
  else some (st, a, dr)

/-- Result of one iteration of the option loop: early `usage` exit (help),
a crash from dereferencing past the end of `argv`, or the updated state
plus how many following arguments were consumed. -/
inductive IterOut where
  | usage : IterOut
  | crash : IterOut
  | cont : ArgState → Nat → IterOut
  deriving DecidableEq

/-- The `-h`/`header` branch (main.c:101-102). -/
def headerUpd (st : ArgState) (a : String) : ArgState :=
  if arg_is a ("-h") ("header") then { st with flags := { st.flags with header := true } } else st

/-- The `-v`/`verbose` branch (main.c:104-105). -/
def verboseUpd (st : ArgState) (a : String) : ArgState :=
  if arg_is a ("-v") ("verbose") then { st with flags := { st.flags with verbose := true } } else st

/-- The `-l`/`line` branch (main.c:112-113). -/
def lineUpd (st : ArgState) (a : String) : ArgState :=
  if arg_is a ("-l") ("line") then { st with flags := { st.flags with gpl := true } } else st

/-- The `-a`/`all` branch (main.c:131-134): reset the range to the full
unsigned 32-bit span. -/
def allUpd (st : ArgState) (a : String) : ArgState :=
  if arg_is a ("-a") ("all") then { st with gmin := 0, gmax := 4294967295 } else st

/-- The `-n`/`native` branch (main.c:136-137). -/
def nativeUpd (st : ArgState) (a : String) : ArgState :=
  if arg_is a ("-n") ("native") then { st with flags := { st.flags with native := true } } else st

/-- The `-r`/`rotate` branch (main.c:139-140). -/
def rotateUpd (st : ArgState) (a : String) : ArgState :=
  if arg_is a ("-r") ("rotate") then { st with flags := { st.flags with rotate := true } } else st

/-- The `-u`/`updown` branch (main.c:152-153). -/
def updownUpd (st : ArgState) (a : String) : ArgState :=
  if arg_is a ("-u") ("updown") then { st with updown := true } else st

/-- The `-f`/`flip` branch (main.c:155-156). -/
def flipUpd (st : ArgState) (a : String) : ArgState :=
  if arg_is a ("-f") ("flip") then { st with flags := { st.flags with flip := true } } else st

/-- The `-l`/`droplast` branch (main.c:158-159): note the short form is
the same `-l` already used by `line`. -/
def droplastUpd (st : ArgState) (a : String) : ArgState :=
  if arg_is a ("-l") ("droplast") then { st with flags := { st.flags with droplast := true } } else st

/-- One iteration of the option loop (main.c:95-161) on the current
argument `a`, with `rest` the following arguments.  The checks are
sequential `if`s in source order; a consuming branch shifts the argument
seen by all later checks of the same iteration. -/
def iterArg (st : ArgState) (a : String) (rest : List String) : IterOut :=
  if arg_is a ("-?") ("help") then .usage
  else
    match ascStep (verboseUpd (headerUpd st a) a) a rest 0 with
    | none => .crash
    | some (st1, a1, d1) =>
      match subsetStep (lineUpd st1 a1) a1 rest d1 with
      | none => .crash
      | some (st2, a2, d2) =>
        match displayStep (rotateUpd (nativeUpd (allUpd st2 a2) a2) a2) a2 rest d2 with
        | none => .crash
        | some (st3, a3, d3) =>
          .cont (droplastUpd (flipUpd (updownUpd st3 a3) a3) a3) d3

/-- Outcome of the whole option loop: the early `usage` return for
`-?`/`help`, or the final state the conversion is invoked with. -/
inductive PResult where
  | usage : PResult
  | done : ArgState → PResult
  deriving DecidableEq

/-- The option loop, driven by a fuel counter bounding the number of
iterations; every iteration consumes at least the current argument, so
`args.length` units of fuel always suffice (`procArgs`). -/
def procArgsF (fuel : Nat) (st : ArgState) (args : List String) : Option PResult :=
  match fuel, args with
  | _, [] => some (.done st)
  | 0, _ :: _ => none
  | fuel + 1, a :: rest =>
    match iterArg st a rest with
    | .usage => some .usage
    | .crash => none
    | .cont st1 d => procArgsF fuel st1 (rest.drop d)

/-- The option loop of `main` run on `argv` past the program name. -/
def procArgs (st : ArgState) (args : List String) : Option PResult :=
  procArgsF args.length st args

/-- The fields of the converted-font record `bdfe_t` that `main.c` reads
(the record itself is declared in `bdf.h`, not among the sources): glyph
pixel width, bytes per glyph, number of glyphs, and the packed bytes. -/
structure bdfe_t where
  gw : Nat
  bpg : Nat
  chars : Nat
  font : List Nat
  deriving DecidableEq

/-- The `ossd_font_t` header filled in by `main` before handing the font
to the display driver (main.c:184-189).  All four fields are `uint8_t`,
so every assignment truncates mod 256; in particular `go`, the glyph
offset the driver adds to a glyph index to obtain a character code, is
`(uint8_t)gmin` — the requested lower bound of the subset, not a value
computed from the glyphs that actually survived filtering. -/
structure ossd_font_t where
  gw : Nat
  gh : Nat
  go : Nat
  gn : Nat
  deriving DecidableEq

/-- main.c:184-189: build the display font header from the converted font
and the requested `gmin`. -/
def ossd_of (font : bdfe_t) (gmin : Nat) : ossd_font_t :=
  { gw := font.gw % 256, gh := font.bpg % 256, go := gmin % 256, gn := font.chars % 256 }

/-- Modelled from the spec: `SubsetFilter.retain(codepoint, min, max)` is
true iff `min ≤ codepoint ≤ max`, inclusive on both ends (the conversion
engine `bdf.c` is not among the sources). -/
def retain (cp gmin gmax : Nat) : Bool :=
  decide (gmin ≤ cp) && decide (cp ≤ gmax)

/-- Modelled from the spec: the codepoints of the glyphs that survive
subset filtering, in font order. -/
def retainedCps (cps : List Nat) (gmin gmax : Nat) : List Nat :=
  cps.filter (fun c => retain c gmin gmax)

/-- Lowest codepoint of a list (the "lowest retained codepoint" of the
spec), `none` on an empty list. -/
def lowestCp : List Nat → Option Nat
  | [] => none
  | c :: cs =>
    match lowestCp cs with
    | none => some c
    | some m => some (if c ≤ m then c else m)

/-- The externally visible steps of `main` after the option loop
(main.c:163-241), in program order. -/
inductive Ev where
  | convertDone : Ev
  | reportFailure : Ev
  | i2cOpen : Ev
  | i2cFail : Ev
  | displayInit : Ev
  | fontUpload : Ev
  | headerText : Ev
  | preview : Ev
  | freeFont : Ev
  deriving DecidableEq

/-- Output-producing events: display initialisation (`ossd_init`), font
upload (`ossd_set_user_font`/`ossd_select_font`), text painted on the
display (`ossd_putlx`), and the interactive glyph preview loop. -/
def isOutput : Ev → Bool
  | .displayInit => true
  | .fontUpload => true
  | .headerText => true
  | .preview => true
  | _ => false

/-- `main` after the option loop (main.c:163-241): `bdf_convert` runs
first and to completion — its result is the parameter `conv`, `none` for
a failed conversion — and the exit code plus the ordered trace of the
remaining externally visible actions follows the source line by line.
`i2cOk` abstracts the `pi2c_open` collaborator. -/
def mainRun (conv : Option bdfe_t) (st : ArgState) (i2cOk : Bool) : Int × List Ev :=
  match conv with
  | none => (-1, [Ev.convertDone, Ev.reportFailure])
  | some _ =>
    if st.flags.display = false then
      (0, [Ev.convertDone, Ev.freeFont])
    else if i2cOk = false then
      (-1, [Ev.convertDone, Ev.i2cFail, Ev.freeFont])
    else
      (0, [Ev.convertDone, Ev.i2cOpen, Ev.displayInit, Ev.fontUpload, Ev.headerText,
           Ev.preview, Ev.freeFont])

/-- Modelled from the spec: the Flip transform reverses the bit order
within every packed byte — bit 0 and bit 7 swap, bit 1 and bit 6 swap,
and so on (`bdf.c` is not among the sources).  Bit `i` of a byte
`b < 256` is `b / 2^i % 2`. -/
def revByte (b : Nat) : Nat :=
  128 * (b % 2) + 64 * (b / 2 % 2) + 32 * (b / 4 % 2) + 16 * (b / 8 % 2) +
    8 * (b / 16 % 2) + 4 * (b / 32 % 2) + 2 * (b / 64 % 2) + (b / 128 % 2)

/-- Modelled from the spec: Flip applied to a glyph's packed byte buffer. -/
def flipGlyph (buf : List Nat) : List Nat :=
  buf.map revByte

theorem arg_is_iff (a p q : String) : arg_is a p q = true ↔ (a = p ∨ a = q) := by
  unfold arg_is
  split
  · simp_all
  · split <;> simp_all

theorem arg_is_digit_false (a p q : String) (ha : firstIsDigit a = true)
    (hp : firstIsDigit p = false) (hq : firstIsDigit q = false) :
    arg_is a p q = false := by
  cases hx : arg_is a p q
  · rfl
  · rcases (arg_is_iff a p q).1 hx with rfl | rfl <;> simp_all

theorem arg_is_xdigit_false (a p q : String) (ha : firstIsXdigit a = true)
    (hp : firstIsXdigit p = false) (hq : firstIsXdigit q = false) :
    arg_is a p q = false := by
  cases hx : arg_is a p q
  · rfl
  · rcases (arg_is_iff a p q).1 hx with rfl | rfl <;> simp_all

theorem mem_of_drop_headq {l : List String} {n : Nat} {x : String}
    (h : (l.drop n).head? = some x) : x ∈ l := by
  apply List.drop_subset n l
  cases hd : l.drop n with
  | nil => rw [hd] at h; cases h
  | cons y ys =>
    rw [hd] at h
    simp only [List.head?] at h
    injection h with h
    subst h
    exact List.mem_cons_self _ _

theorem ascStep_out {st : ArgState} {a : String} {rest : List String} {dr : Nat}
    {st' : ArgState} {a' : String} {d' : Nat}
    (h : ascStep st a rest dr = some (st', a', d')) :
    st'.gmin = st.gmin ∧ st'.gmax = st.gmax ∧ st'.flags = st.flags ∧ st'.updown = st.updown ∧
      ((a' = a ∧ d' = dr) ∨
        (d' = dr + 1 ∧ firstIsDigit a' = true ∧ (rest.drop dr).head? = some a')) := by
  unfold ascStep at h
  split at h
  · split at h
    · cases h
    · rename_i next l hd
      split at h
      · rename_i hdig
        simp only [Option.some.injEq, Prod.mk.injEq] at h
        obtain ⟨rfl, rfl, rfl⟩ := h
        refine ⟨rfl, rfl, rfl, rfl, Or.inr ⟨rfl, hdig, ?_⟩⟩
        rw [hd]; rfl
      · simp only [Option.some.injEq, Prod.mk.injEq] at h
        obtain ⟨rfl, rfl, rfl⟩ := h
        exact ⟨rfl, rfl, rfl, rfl, Or.inl ⟨rfl, rfl⟩⟩
  · simp only [Option.some.injEq, Prod.mk.injEq] at h
    obtain ⟨rfl, rfl, rfl⟩ := h
    exact ⟨rfl, rfl, rfl, rfl, Or.inl ⟨rfl, rfl⟩⟩

theorem subsetStep_out {st : ArgState} {a : String} {rest : List String} {dr : Nat}
    {st' : ArgState} {a' : String} {d' : Nat}
    (h : subsetStep st a rest dr = some (st', a', d')) :
    st'.flags = st.flags ∧ st'.ascender = st.ascender ∧ st'.updown = st.updown ∧
      ((st'.gmin = st.gmin ∧ st'.gmax = st.gmax) ∨
        (arg_is a ("-s") ("subset") = true ∧ st'.gmin ≤ st'.gmax)) ∧
      ((a' = a ∧ d' = dr) ∨
        (arg_is a ("-s") ("subset") = true ∧ d' = dr + 1 ∧ firstIsDigit a' = true ∧
          (rest.drop dr).head? = some a')) := by
  unfold subsetStep at h
  split at h
  · rename_i hguard
    split at h
    · cases h
    · rename_i next l hd
      split at h
      · rename_i hdig
        simp only [Option.some.injEq, Prod.mk.injEq] at h
        obtain ⟨rfl, rfl, rfl⟩ := h
        refine ⟨rfl, rfl, rfl, Or.inr ⟨hguard, ?_⟩, Or.inr ⟨hguard, rfl, hdig, ?_⟩⟩
        · simp only []
          split <;> omega
        · rw [hd]; rfl
      · simp only [Option.some.injEq, Prod.mk.injEq] at h
        obtain ⟨rfl, rfl, rfl⟩ := h
        exact ⟨rfl, rfl, rfl, Or.inl ⟨rfl, rfl⟩, Or.inl ⟨rfl, rfl⟩⟩
  · simp only [Option.some.injEq, Prod.mk.injEq] at h
    obtain ⟨rfl, rfl, rfl⟩ := h
    exact ⟨rfl, rfl, rfl, Or.inl ⟨rfl, rfl⟩, Or.inl ⟨rfl, rfl⟩⟩

theorem displayStep_out {st : ArgState} {a : String} {rest : List String} {dr : Nat}
    {st' : ArgState} {a' : String} {d' : Nat}
    (h : displayStep st a rest dr = some (st', a', d')) :
    st'.gmin = st.gmin ∧ st'.gmax = st.gmax ∧ st'.ascender = st.ascender ∧
      st'.flags.gpl = st.flags.gpl ∧ st'.flags.droplast = st.flags.droplast ∧
      ((a' = a ∧ d' = dr) ∨
        (arg_is a ("-d") ("display") = true ∧ d' = dr + 1 ∧ firstIsXdigit a' = true ∧
          (rest.drop dr).head? = some a')) := by
  unfold displayStep at h
  split at h
  · rename_i hguard
    split at h
    · cases h
    · rename_i next l hd
      split at h
      · rename_i hx
        simp only [Option.some.injEq, Prod.mk.injEq] at h
        obtain ⟨rfl, rfl, rfl⟩ := h
        refine ⟨?_, ?_, ?_, ?_, ?_, Or.inr ⟨hguard, rfl, hx, ?_⟩⟩
        · split <;> rfl
        · split <;> rfl
        · split <;> rfl
        · split <;> rfl
        · split <;> rfl
        · rw [hd]; rfl
      · simp only [Option.some.injEq, Prod.mk.injEq] at h
        obtain ⟨rfl, rfl, rfl⟩ := h
        exact ⟨rfl, rfl, rfl, rfl, rfl, Or.inl ⟨rfl, rfl⟩⟩
  · simp only [Option.some.injEq, Prod.mk.injEq] at h
    obtain ⟨rfl, rfl, rfl⟩ := h
    exact ⟨rfl, rfl, rfl, rfl, rfl, Or.inl ⟨rfl, rfl⟩⟩

theorem headerUpd_fields (st : ArgState) (a : String) :
    (headerUpd st a).gmin = st.gmin ∧ (headerUpd st a).gmax = st.gmax ∧
      (headerUpd st a).flags.gpl = st.flags.gpl ∧
      (headerUpd st a).flags.droplast = st.flags.droplast := by
  unfold headerUpd; split <;> exact ⟨rfl, rfl, rfl, rfl⟩

theorem verboseUpd_fields (st : ArgState) (a : String) :
    (verboseUpd st a).gmin = st.gmin ∧ (verboseUpd st a).gmax = st.gmax ∧
      (verboseUpd st a).flags.gpl = st.flags.gpl ∧
      (verboseUpd st a).flags.droplast = st.flags.droplast := by
  unfold verboseUpd; split <;> exact ⟨rfl, rfl, rfl, rfl⟩

theorem nativeUpd_fields (st : ArgState) (a : String) :
    (nativeUpd st a).gmin = st.gmin ∧ (nativeUpd st a).gmax = st.gmax ∧
      (nativeUpd st a).flags.gpl = st.flags.gpl ∧
      (nativeUpd st a).flags.droplast = st.flags.droplast := by
  unfold nativeUpd; split <;> exact ⟨rfl, rfl, rfl, rfl⟩

theorem rotateUpd_fields (st : ArgState) (a : String) :
    (rotateUpd st a).gmin = st.gmin ∧ (rotateUpd st a).gmax = st.gmax ∧
      (rotateUpd st a).flags.gpl = st.flags.gpl ∧
      (rotateUpd st a).flags.droplast = st.flags.droplast := by
  unfold rotateUpd; split <;> exact ⟨rfl, rfl, rfl, rfl⟩

theorem updownUpd_fields (st : ArgState) (a : String) :
    (updownUpd st a).gmin = st.gmin ∧ (updownUpd st a).gmax = st.gmax ∧
      (updownUpd st a).flags.gpl = st.flags.gpl ∧
      (updownUpd st a).flags.droplast = st.flags.droplast := by
  unfold updownUpd; split <;> exact ⟨rfl, rfl, rfl, rfl⟩

theorem flipUpd_fields (st : ArgState) (a : String) :
    (flipUpd st a).gmin = st.gmin ∧ (flipUpd st a).gmax = st.gmax ∧
      (flipUpd st a).flags.gpl = st.flags.gpl ∧
      (flipUpd st a).flags.droplast = st.flags.droplast := by
  unfold flipUpd; split <;> exact ⟨rfl, rfl, rfl, rfl⟩

theorem lineUpd_fields (st : ArgState) (a : String) :
    (lineUpd st a).gmin = st.gmin ∧ (lineUpd st a).gmax = st.gmax ∧
      (lineUpd st a).flags.gpl = (arg_is a ("-l") ("line") || st.flags.gpl) ∧
      (lineUpd st a).flags.droplast = st.flags.droplast := by
  unfold lineUpd; split <;> simp_all

theorem droplastUpd_fields (st : ArgState) (a : String) :
    (droplastUpd st a).gmin = st.gmin ∧ (droplastUpd st a).gmax = st.gmax ∧
      (droplastUpd st a).flags.gpl = st.flags.gpl ∧
      (droplastUpd st a).flags.droplast = (arg_is a ("-l") ("droplast") || st.flags.droplast) := by
  unfold droplastUpd; split <;> simp_all

theorem allUpd_fields (st : ArgState) (a : String) :
    (allUpd st a).flags.gpl = st.flags.gpl ∧ (allUpd st a).flags.droplast = st.flags.droplast ∧
      ((arg_is a ("-a") ("all") = false ∧ (allUpd st a).gmin = st.gmin ∧
          (allUpd st a).gmax = st.gmax) ∨
        (arg_is a ("-a") ("all") = true ∧ (allUpd st a).gmin = 0 ∧
          (allUpd st a).gmax = 4294967295)) := by
  unfold allUpd
  split
  · rename_i hg
    exact ⟨rfl, rfl, Or.inr ⟨hg, rfl, rfl⟩⟩
  · rename_i hg
    exact ⟨rfl, rfl, Or.inl ⟨Bool.of_not_eq_true hg, rfl, rfl⟩⟩

theorem headq_eq_cons {l : List String} {x : String} (h : l.head? = some x) :
    ∃ t, l = x :: t := by
  cases l with
  | nil => cases h
  | cons y ys =>
    simp only [List.head?] at h
    injection h with h
    exact ⟨ys, by rw [h]⟩

theorem iterArg_out {st : ArgState} {a : String} {rest : List String}
    {st1 : ArgState} {d : Nat} (h : iterArg st a rest = .cont st1 d) :
    ∃ a1 a2,
      (a1 = a ∨ a1 ∈ rest) ∧ (a2 = a1 ∨ a2 ∈ rest) ∧
      (st.flags.gpl = true → st1.flags.gpl = true) ∧
      (st.flags.droplast = true → st1.flags.droplast = true) ∧
      ((st1.gmin = st.gmin ∧ st1.gmax = st.gmax) ∨
        (arg_is a1 ("-s") ("subset") = true ∧ st1.gmin ≤ st1.gmax) ∨
        (arg_is a2 ("-a") ("all") = true ∧ st1.gmin = 0 ∧ st1.gmax = 4294967295)) ∧
      (d = 0 ∨ ∃ next t, rest = next :: t ∧ d = 1 ∧
        (firstIsDigit next = true ∨
          (firstIsXdigit next = true ∧ arg_is a ("-d") ("display") = true))) := by
  unfold iterArg at h
  split at h
  · exact IterOut.noConfusion h
  split at h
  · exact IterOut.noConfusion h
  rename_i sA aA dA hA
  split at h
  · exact IterOut.noConfusion h
  rename_i sS aS dS hS
  split at h
  · exact IterOut.noConfusion h
  rename_i sD aD dD hD
  injection h with h1 h2
  subst h1
  subst h2
  obtain ⟨hA1, hA2, hA3, hA4, hAc⟩ := ascStep_out hA
  obtain ⟨hS1, hS2, hS3, hSr, hSc⟩ := subsetStep_out hS
  obtain ⟨hD1, hD2, hD3, hD4, hD5, hDc⟩ := displayStep_out hD
  refine ⟨aA, aS, ?_, ?_, ?_, ?_, ?_, ?_⟩
  · rcases hAc with ⟨haa, _⟩ | ⟨_, _, hhd⟩
    · exact Or.inl haa
    · exact Or.inr (mem_of_drop_headq hhd)
  · rcases hSc with ⟨haa, _⟩ | ⟨_, _, _, hhd⟩
    · exact Or.inl haa
    · exact Or.inr (mem_of_drop_headq hhd)
  · intro hgpl
    rw [(droplastUpd_fields _ _).2.2.1, (flipUpd_fields _ _).2.2.1,
      (updownUpd_fields _ _).2.2.1, hD4, (rotateUpd_fields _ _).2.2.1,
      (nativeUpd_fields _ _).2.2.1, (allUpd_fields sS aS).1, hS1,
      (lineUpd_fields sA aA).2.2.1, hA3, (verboseUpd_fields _ _).2.2.1,
      (headerUpd_fields _ _).2.2.1, hgpl, Bool.or_true]
  · intro hdl
    rw [(droplastUpd_fields _ _).2.2.2, (flipUpd_fields _ _).2.2.2,
      (updownUpd_fields _ _).2.2.2, hD5, (rotateUpd_fields _ _).2.2.2,
      (nativeUpd_fields _ _).2.2.2, (allUpd_fields sS aS).2.1, hS1,
      (lineUpd_fields sA aA).2.2.2, hA3, (verboseUpd_fields _ _).2.2.2,
      (headerUpd_fields _ _).2.2.2, hdl, Bool.or_true]
  · have hmin : (droplastUpd (flipUpd (updownUpd sD aD) aD) aD).gmin = (allUpd sS aS).gmin := by
      rw [(droplastUpd_fields _ _).1, (flipUpd_fields _ _).1, (updownUpd_fields _ _).1, hD1,
        (rotateUpd_fields _ _).1, (nativeUpd_fields _ _).1]
    have hmax : (droplastUpd (flipUpd (updownUpd sD aD) aD) aD).gmax = (allUpd sS aS).gmax := by
      rw [(droplastUpd_fields _ _).2.1, (flipUpd_fields _ _).2.1, (updownUpd_fields _ _).2.1,
        hD2, (rotateUpd_fields _ _).2.1, (nativeUpd_fields _ _).2.1]
    rcases (allUpd_fields sS aS).2.2 with ⟨hano, ha1, ha2⟩ | ⟨hayes, ha1, ha2⟩
    · rcases hSr with ⟨hsr1, hsr2⟩ | ⟨hsg, hsle⟩
      · left
        constructor
        · rw [hmin, ha1, hsr1, (lineUpd_fields sA aA).1, hA1, (verboseUpd_fields _ _).1,
            (headerUpd_fields _ _).1]
        · rw [hmax, ha2, hsr2, (lineUpd_fields sA aA).2.1, hA2, (verboseUpd_fields _ _).2.1,
            (headerUpd_fields _ _).2.1]
      · right; left
        refine ⟨hsg, ?_⟩
        rw [hmin, hmax, ha1, ha2]
        exact hsle
    · right; right
      exact ⟨hayes, by rw [hmin, ha1], by rw [hmax, ha2]⟩
  · rcases hAc with ⟨haa, hda⟩ | ⟨hda, hAdig, hAhd⟩
    · subst haa
      subst hda
      rcases hSc with ⟨has, hds⟩ | ⟨hSg, hds, hSdig, hShd⟩
      · subst has
        subst hds
        rcases hDc with ⟨had, hdd⟩ | ⟨hDg, hdd, hDx, hDhd⟩
        · subst hdd
          exact Or.inl rfl
        · rw [List.drop_zero] at hDhd
          obtain ⟨t, rfl⟩ := headq_eq_cons hDhd
          exact Or.inr ⟨aD, t, rfl, hdd, Or.inr ⟨hDx, hDg⟩⟩
      · rw [List.drop_zero] at hShd
        obtain ⟨t, rfl⟩ := headq_eq_cons hShd
        rcases hDc with ⟨had, hdd⟩ | ⟨hDg, hdd, hDx, hDhd⟩
        · subst hdd
          exact Or.inr ⟨aS, t, rfl, hds, Or.inl hSdig⟩
        · rw [arg_is_digit_false aS ("-d") ("display") hSdig (by decide) (by decide)] at hDg
          cases hDg
    · rw [List.drop_zero] at hAhd
      obtain ⟨t, rfl⟩ := headq_eq_cons hAhd
      rcases hSc with ⟨has, hds⟩ | ⟨hSg, hds, hSdig, hShd⟩
      · subst has
        subst hds
        rcases hDc with ⟨had, hdd⟩ | ⟨hDg, hdd, hDx, hDhd⟩
        · subst hdd
          exact Or.inr ⟨aS, t, rfl, hda, Or.inl hAdig⟩
        · rw [arg_is_digit_false aS ("-d") ("display") hAdig (by decide) (by decide)] at hDg
          cases hDg
      · rw [arg_is_digit_false aA ("-s") ("subset") hAdig (by decide) (by decide)] at hSg
        cases hSg

theorem iter_l (st : ArgState) (rest : List String) :
    iterArg st ("-l") rest =
      .cont { st with flags := { st.flags with gpl := true, droplast := true } } 0 := rfl

theorem iter_all (st : ArgState) (rest : List String) :
    iterArg st ("all") rest = .cont { st with gmin := 0, gmax := 4294967295 } 0 := rfl

theorem iter_a_digit {next : String} (st : ArgState) (rest : List String)
    (hd : firstIsDigit next = true) :
    iterArg st ("-a") (next :: rest) =
      .cont { st with ascender := (strtoul10 next.data).1 % 4294967296 } 1 := by
  have h1 := arg_is_digit_false next ("-l") ("line") hd (by decide) (by decide)
  have h2 := arg_is_digit_false next ("-s") ("subset") hd (by decide) (by decide)
  have h3 := arg_is_digit_false next ("-a") ("all") hd (by decide) (by decide)
  have h4 := arg_is_digit_false next ("-n") ("native") hd (by decide) (by decide)
  have h5 := arg_is_digit_false next ("-r") ("rotate") hd (by decide) (by decide)
  have h6 := arg_is_digit_false next ("-d") ("display") hd (by decide) (by decide)
  have h7 := arg_is_digit_false next ("-u") ("updown") hd (by decide) (by decide)
  have h8 := arg_is_digit_false next ("-f") ("flip") hd (by decide) (by decide)
  have h9 := arg_is_digit_false next ("-l") ("droplast") hd (by decide) (by decide)
  unfold iterArg ascStep subsetStep displayStep headerUpd verboseUpd lineUpd allUpd
    nativeUpd rotateUpd updownUpd flipUpd droplastUpd
  simp [hd, h1, h2, h3, h4, h5, h6, h7, h8, h9,
    (by decide : arg_is ("-a") ("-?") ("help") = false),
    (by decide : arg_is ("-a") ("-h") ("header") = false),
    (by decide : arg_is ("-a") ("-v") ("verbose") = false),
    (by decide : arg_is ("-a") ("-a") ("ascender") = true)]

theorem iter_a_nondigit {next : String} (st : ArgState) (rest : List String)
    (hd : firstIsDigit next = false) :
    iterArg st ("-a") (next :: rest) = .cont { st with gmin := 0, gmax := 4294967295 } 0 := by
  unfold iterArg ascStep subsetStep displayStep headerUpd verboseUpd lineUpd allUpd
    nativeUpd rotateUpd updownUpd flipUpd droplastUpd
  simp [hd,
    (by decide : arg_is ("-a") ("-?") ("help") = false),
    (by decide : arg_is ("-a") ("-h") ("header") = false),
    (by decide : arg_is ("-a") ("-v") ("verbose") = false),
    (by decide : arg_is ("-a") ("-a") ("ascender") = true),
    (by decide : arg_is ("-a") ("-l") ("line") = false),
    (by decide : arg_is ("-a") ("-s") ("subset") = false),
    (by decide : arg_is ("-a") ("-a") ("all") = true),
    (by decide : arg_is ("-a") ("-n") ("native") = false),
    (by decide : arg_is ("-a") ("-r") ("rotate") = false),
    (by decide : arg_is ("-a") ("-d") ("display") = false),
    (by decide : arg_is ("-a") ("-u") ("updown") = false),
    (by decide : arg_is ("-a") ("-f") ("flip") = false),
    (by decide : arg_is ("-a") ("-l") ("droplast") = false)]

theorem procArgsF_out :
    ∀ (fuel : Nat) (args : List String) (st st' : ArgState),
      args.length ≤ fuel → procArgsF fuel st args = some (.done st') →
      ((st.flags.gpl = true → st'.flags.gpl = true) ∧
        (st.flags.droplast = true → st'.flags.droplast = true) ∧
        (("-l") ∈ args → st'.flags.gpl = true ∧ st'.flags.droplast = true) ∧
        (st.gmin ≤ st.gmax → st'.gmin ≤ st'.gmax) ∧
        ((∀ x ∈ args, x ≠ ("-s") ∧ x ≠ ("subset") ∧ x ≠ ("-a") ∧ x ≠ ("all")) →
          st'.gmin = st.gmin ∧ st'.gmax = st.gmax) ∧
        ((∀ x ∈ args, x ≠ ("-s") ∧ x ≠ ("subset")) →
          ((st'.gmin = st.gmin ∧ st'.gmax = st.gmax) ∨
            (st'.gmin = 0 ∧ st'.gmax = 4294967295))) ∧
        ((("all") ∈ args ∧
            ∀ x ∈ args, x ≠ ("-s") ∧ x ≠ ("subset") ∧ x ≠ ("-d") ∧ x ≠ ("display")) →
          st'.gmin = 0 ∧ st'.gmax = 4294967295)) := by
  intro fuel
  induction fuel with
  | zero =>
    intro args st st' hlen h
    cases args with
    | nil =>
      simp only [procArgsF, Option.some.injEq, PResult.done.injEq] at h
      subst h
      refine ⟨id, id, ?_, id, fun _ => ⟨rfl, rfl⟩, fun _ => Or.inl ⟨rfl, rfl⟩, ?_⟩
      · intro hm; cases hm
      · intro hc; cases hc.1
    | cons a rest => simp at hlen
  | succ n ih =>
    intro args st st' hlen h
    cases args with
    | nil =>
      simp only [procArgsF, Option.some.injEq, PResult.done.injEq] at h
      subst h
      refine ⟨id, id, ?_, id, fun _ => ⟨rfl, rfl⟩, fun _ => Or.inl ⟨rfl, rfl⟩, ?_⟩
      · intro hm; cases hm
      · intro hc; cases hc.1
    | cons a rest =>
      simp only [procArgsF] at h
      split at h
      · exact PResult.noConfusion (Option.some.inj h)
      · exact Option.noConfusion h
      rename_i st1 d hiter
      have hlen' : (rest.drop d).length ≤ n := by
        rw [List.length_drop]
        simp only [List.length_cons] at hlen
        omega
      have IH := ih (rest.drop d) st1 st' hlen' h
      obtain ⟨a1, a2, ha1, ha2, hmgpl, hmdl, hrange, hcons⟩ := iterArg_out hiter
      have ha2' : a2 = a ∨ a2 ∈ rest := by
        rcases ha2 with he | hm
        · rw [he]; exact ha1
        · exact Or.inr hm
      refine ⟨?_, ?_, ?_, ?_, ?_, ?_, ?_⟩
      · exact fun hg => IH.1 (hmgpl hg)
      · exact fun hg => IH.2.1 (hmdl hg)
      · intro hmem
        rcases List.mem_cons.mp hmem with heq | hmemr
        · have hit2 := iter_l st rest
          rw [← heq] at hiter
          rw [hit2] at hiter
          injection hiter with hh1 hh2
          exact ⟨IH.1 (by rw [← hh1]), IH.2.1 (by rw [← hh1])⟩
        · have hmemd : ("-l") ∈ rest.drop d := by
            rcases hcons with rfl | ⟨next, t, rfl, rfl, hnd⟩
            · rw [List.drop_zero]; exact hmemr
            · rcases List.mem_cons.mp hmemr with hq | hq
              · exfalso
                rcases hnd with hdg | ⟨hx, _⟩
                · rw [← hq] at hdg; exact absurd hdg (by decide)
                · rw [← hq] at hx; exact absurd hx (by decide)
              · simp only [List.drop_succ_cons, List.drop_zero]; exact hq
          exact IH.2.2.1 hmemd
      · intro hle
        apply IH.2.2.2.1
        rcases hrange with ⟨h1, h2⟩ | ⟨_, hsle⟩ | ⟨_, h1, h2⟩
        · rw [h1, h2]; exact hle
        · exact hsle
        · rw [h1, h2]; exact Nat.zero_le _
      · intro hex
        have hexr : ∀ x ∈ rest.drop d,
            x ≠ ("-s") ∧ x ≠ ("subset") ∧ x ≠ ("-a") ∧ x ≠ ("all") :=
          fun x hx => hex x (List.mem_cons_of_mem a (List.drop_subset d rest hx))
        have IH5 := IH.2.2.2.2.1 hexr
        have hns : st1.gmin = st.gmin ∧ st1.gmax = st.gmax := by
          rcases hrange with hpr | ⟨hsg, _⟩ | ⟨hag, _, _⟩
          · exact hpr
          · exfalso
            rcases (arg_is_iff _ _ _).1 hsg with rfl | rfl
            · rcases ha1 with hq | hq
              · exact (hex a (List.mem_cons_self a rest)).1 hq.symm
              · exact (hex _ (List.mem_cons_of_mem a hq)).1 rfl
            · rcases ha1 with hq | hq
              · exact (hex a (List.mem_cons_self a rest)).2.1 hq.symm
              · exact (hex _ (List.mem_cons_of_mem a hq)).2.1 rfl
          · exfalso
            rcases (arg_is_iff _ _ _).1 hag with rfl | rfl
            · rcases ha2' with hq | hq
              · exact (hex a (List.mem_cons_self a rest)).2.2.1 hq.symm
              · exact (hex _ (List.mem_cons_of_mem a hq)).2.2.1 rfl
            · rcases ha2' with hq | hq
              · exact (hex a (List.mem_cons_self a rest)).2.2.2 hq.symm
              · exact (hex _ (List.mem_cons_of_mem a hq)).2.2.2 rfl
        exact ⟨IH5.1.trans hns.1, IH5.2.trans hns.2⟩
      · intro hex
        have hexr : ∀ x ∈ rest.drop d, x ≠ ("-s") ∧ x ≠ ("subset") :=
          fun x hx => hex x (List.mem_cons_of_mem a (List.drop_subset d rest hx))
        have IH6 := IH.2.2.2.2.2.1 hexr
        have hnos : ¬ (arg_is a1 ("-s") ("subset") = true) := by
          intro hsg
          rcases (arg_is_iff _ _ _).1 hsg with rfl | rfl
          · rcases ha1 with hq | hq
            · exact (hex a (List.mem_cons_self a rest)).1 hq.symm
            · exact (hex _ (List.mem_cons_of_mem a hq)).1 rfl
          · rcases ha1 with hq | hq
            · exact (hex a (List.mem_cons_self a rest)).2 hq.symm
            · exact (hex _ (List.mem_cons_of_mem a hq)).2 rfl
        rcases hrange with ⟨h1, h2⟩ | ⟨hsg, _⟩ | ⟨_, h1, h2⟩
        · rcases IH6 with ⟨i1, i2⟩ | hfull
          · exact Or.inl ⟨i1.trans h1, i2.trans h2⟩
          · exact Or.inr hfull
        · exact absurd hsg hnos
        · rcases IH6 with ⟨i1, i2⟩ | hfull
          · exact Or.inr ⟨i1.trans h1, i2.trans h2⟩
          · exact Or.inr hfull
      · intro hc
        obtain ⟨hmem, hex⟩ := hc
        rcases List.mem_cons.mp hmem with heq | hmemr
        · have hit2 := iter_all st rest
          rw [← heq] at hiter
          rw [hit2] at hiter
          injection hiter with hh1 hh2
          have hexr : ∀ x ∈ rest.drop d, x ≠ ("-s") ∧ x ≠ ("subset") := by
            intro x hx
            have hh := hex x (List.mem_cons_of_mem a (List.drop_subset d rest hx))
            exact ⟨hh.1, hh.2.1⟩
          have IH6 := IH.2.2.2.2.2.1 hexr
          rcases IH6 with ⟨i1, i2⟩ | hfull
          · exact ⟨by rw [i1, ← hh1], by rw [i2, ← hh1]⟩
          · exact hfull
        · have hmemd : ("all") ∈ rest.drop d := by
            rcases hcons with rfl | ⟨next, t, rfl, rfl, hnd⟩
            · rw [List.drop_zero]; exact hmemr
            · rcases List.mem_cons.mp hmemr with hq | hq
              · exfalso
                rcases hnd with hdg | ⟨_, hdisp⟩
                · rw [← hq] at hdg; exact absurd hdg (by decide)
                · rcases (arg_is_iff _ _ _).1 hdisp with rfl | rfl
                  · exact (hex _ (List.mem_cons_self _ _)).2.2.1 rfl
                  · exact (hex _ (List.mem_cons_self _ _)).2.2.2 rfl
              · simp only [List.drop_succ_cons, List.drop_zero]; exact hq
          have hexr : ∀ x ∈ rest.drop d,
              x ≠ ("-s") ∧ x ≠ ("subset") ∧ x ≠ ("-d") ∧ x ≠ ("display") :=
            fun x hx => hex x (List.mem_cons_of_mem a (List.drop_subset d rest hx))
          exact IH.2.2.2.2.2.2 ⟨hmemd, hexr⟩

theorem lowestCp_mem : ∀ {l : List Nat} {m : Nat}, lowestCp l = some m → m ∈ l := by
  intro l
  induction l with
  | nil => intro m h; cases h
  | cons c cs ih =>
    intro m h
    rw [lowestCp] at h
    rcases hq : lowestCp cs with _ | k
    · rw [hq] at h
      injection h with h
      rw [← h]
      exact List.mem_cons_self c cs
    · rw [hq] at h
      injection h with h
      rw [← h]
      split
      · exact List.mem_cons_self c cs
      · exact List.mem_cons_of_mem c (ih hq)

theorem lowestCp_eq (g : Nat) :
    ∀ (l : List Nat), g ∈ l → (∀ x ∈ l, g ≤ x) → lowestCp l = some g := by
  intro l
  induction l with
  | nil => intro hm; cases hm
  | cons c cs ih =>
    intro hm hle
    cases cs with
    | nil =>
      have : g = c := by
        rcases List.mem_cons.mp hm with h | h
        · exact h
        · cases h
      rw [this]
      rfl
    | cons c2 cs2 =>
      have hsome : ∃ k, lowestCp (c2 :: cs2) = some k := by
        rw [lowestCp]
        rcases lowestCp cs2 with _ | m
        · exact ⟨c2, rfl⟩
        · exact ⟨if c2 ≤ m then c2 else m, rfl⟩
      obtain ⟨k, hk⟩ := hsome
      rw [lowestCp, hk]
      have hkmem : k ∈ c2 :: cs2 := lowestCp_mem hk
      have hgk : g ≤ k := hle k (List.mem_cons_of_mem c hkmem)
      have hgc : g ≤ c := hle c (List.mem_cons_self c _)
      rcases List.mem_cons.mp hm with rfl | hgm
      · show some (if g ≤ k then g else k) = some g
        rw [if_pos hgk]
      · have hrec := ih hgm (fun x hx => hle x (List.mem_cons_of_mem c hx))
        rw [hrec] at hk
        injection hk with hk
        subst hk
        show some (if c ≤ g then c else g) = some g
        split
        · rename_i hck
          have : c = g := Nat.le_antisymm hck hgc
          rw [this]
        · rfl

theorem revByte_invol : ∀ b, b < 256 → revByte (revByte b) = b := by decide

/-- C1: the glyph offset `main` hands to the display driver (`of.go`,
main.c:187) is the truncated requested lower bound `(uint8_t)gmin`, not
the lowest retained codepoint: for the font {66,67} with requested subset
65-66 the conversion retains exactly the codepoint 66 (so it succeeds),
the lowest retained codepoint is 66, yet the offset passed is 65. -/
theorem claim_C1_counterexample :
    retainedCps [66, 67] 65 66 = [66] ∧
      lowestCp (retainedCps [66, 67] 65 66) = some 66 ∧
      (ossd_of ⟨8, 8, 1, []⟩ 65).go = 65 ∧
      ¬ lowestCp (retainedCps [66, 67] 65 66) =
          some ((ossd_of ⟨8, 8, 1, []⟩ 65).go) := by
  refine ⟨rfl, rfl, rfl, ?_⟩
  decide

/-- C1 (amended): the glyph offset passed to the display driver equals
`gmin % 256`, and it coincides with the lowest retained codepoint exactly
when the font itself contains a glyph at the requested lower bound `gmin`
and `gmin` fits in a byte: sufficiency because `gmin` is then itself the
least retained codepoint, necessity because every retained codepoint is
at least `gmin` while `gmin % 256 ≤ gmin`.  In particular subset 65-66
against {65,66,67} yields offset 65. -/
theorem claim_C1_amended (f : bdfe_t) (cps : List Nat) (gmin gmax : Nat)
    (h2 : gmin ≤ gmax) :
    (ossd_of f gmin).go = gmin % 256 ∧
      (lowestCp (retainedCps cps gmin gmax) = some ((ossd_of f gmin).go) ↔
        gmin ∈ cps ∧ gmin < 256) := by
  have hgo : (ossd_of f gmin).go = gmin % 256 := rfl
  refine ⟨hgo, ?_, ?_⟩
  · intro heq
    have hm := lowestCp_mem heq
    obtain ⟨hcps, hret⟩ := List.mem_filter.mp hm
    simp only [retain, Bool.and_eq_true, decide_eq_true_eq] at hret
    rw [hgo] at hcps hret
    have hle : gmin % 256 ≤ gmin := Nat.mod_le _ _
    have heqg : gmin % 256 = gmin := Nat.le_antisymm hle hret.1
    rw [heqg] at hcps
    refine ⟨hcps, ?_⟩
    by_contra hge
    push_neg at hge
    have hlt : gmin % 256 < 256 := Nat.mod_lt gmin (by omega)
    omega
  · rintro ⟨h1, h3⟩
    rw [hgo, Nat.mod_eq_of_lt h3]
    apply lowestCp_eq
    · refine List.mem_filter.mpr ⟨h1, ?_⟩
      simp [retain, h2]
    · intro x hx
      have hr := List.of_mem_filter hx
      simp only [retain, Bool.and_eq_true, decide_eq_true_eq] at hr
      exact hr.1

/-- Witness for C1 (amended) at the spec's own scenario: subset 65-66
against codepoints {65,66,67} retains exactly the two glyphs 65 and 66
and the offset equals the lowest retained codepoint 65. -/
theorem claim_C1_witness :
    ((ossd_of ⟨8, 8, 2, []⟩ 65).go = 65 % 256 ∧
      (lowestCp (retainedCps [65, 66, 67] 65 66) = some ((ossd_of ⟨8, 8, 2, []⟩ 65).go) ↔
        65 ∈ [65, 66, 67] ∧ 65 < 256)) ∧
      retainedCps [65, 66, 67] 65 66 = [65, 66] ∧
      lowestCp (retainedCps [65, 66, 67] 65 66) = some 65 :=
  ⟨claim_C1_amended ⟨8, 8, 2, []⟩ [65, 66, 67] 65 66 (by decide), by decide, by decide⟩

/-- C2: false as stated — `-a` followed by an argument that starts with a
decimal digit parses the ascender, consumes that argument, and leaves the
codepoint range untouched: `-a 5` yields ascender 5 with the default range
32-126, not the full unsigned range. -/
theorem claim_C2_counterexample :
    procArgs initState [("-a"), ("5"), ("f.bdf")] =
        some (.done { initState with ascender := 5 }) ∧
      ({ initState with ascender := 5 } : ArgState).gmin = 32 ∧
      ({ initState with ascender := 5 } : ArgState).gmax = 126 ∧
      ¬ (({ initState with ascender := 5 } : ArgState).gmin = 0 ∧
        ({ initState with ascender := 5 } : ArgState).gmax = 4294967295) :=
  ⟨rfl, rfl, rfl, by decide⟩

/-- C2 (amended): `-a` triggers the `all` branch only when the following
argument does not start with a decimal digit (then no ascender value is
consumed and the range becomes the full unsigned range); when the next
argument starts with a digit, `-a H` consumes it into the ascender and the
range is left unchanged, because the consumed argument is what the later
`all` check inspects. -/
theorem claim_C2_amended (fuel : Nat) (st : ArgState) (next : String) (rest : List String) :
    procArgsF (fuel + 1) st (("-a") :: next :: rest) =
      if firstIsDigit next = true then
        procArgsF fuel { st with ascender := (strtoul10 next.data).1 % 4294967296 } rest
      else
        procArgsF fuel { st with gmin := 0, gmax := 4294967295 } (next :: rest) := by
  by_cases hd : firstIsDigit next = true
  · rw [if_pos hd]
    simp only [procArgsF]
    rw [iter_a_digit st rest hd]
    rfl
  · rw [if_neg hd]
    have hd' : firstIsDigit next = false := Bool.eq_false_iff.mpr hd
    simp only [procArgsF]
    rw [iter_a_nondigit st rest hd']
    rfl

/-- C3: any command line containing `-l` that reaches conversion sets both
the one-glyph-per-line flag (`line`) and the drop-last-byte flag
(`droplast`), because `-l` is the short form of both options. -/
theorem claim_C3 (args : List String) (st' : ArgState)
    (h : procArgs initState args = some (.done st')) (hmem : ("-l") ∈ args) :
    st'.flags.gpl = true ∧ st'.flags.droplast = true :=
  (procArgsF_out args.length args initState st' (Nat.le_refl _) h).2.2.1 hmem

/-- Witness for C3 on the command line `-l f.bdf`. -/
theorem claim_C3_witness :
    ({ initState with flags := { gpl := true, droplast := true } } : ArgState).flags.gpl = true ∧
      ({ initState with
          flags := { gpl := true, droplast := true } } : ArgState).flags.droplast = true :=
  claim_C3 [("-l"), ("f.bdf")] { initState with flags := { gpl := true, droplast := true } }
    rfl (by decide)

/-- C4: when `bdf_convert` yields no font, `main` reports the failure,
exits with the non-zero status -1, and performs no further action — the
trace holds no display initialisation, font upload, text or preview
output. -/
theorem claim_C4 (st : ArgState) (i2cOk : Bool) :
    mainRun none st i2cOk = (-1, [Ev.convertDone, Ev.reportFailure]) ∧
      ((mainRun none st i2cOk).1 == 0) = false ∧
      (mainRun none st i2cOk).2.filter isOutput = [] ∧
      Ev.reportFailure ∈ (mainRun none st i2cOk).2 :=
  ⟨rfl, rfl, rfl,
    (by decide : Ev.reportFailure ∈ [Ev.convertDone, Ev.reportFailure])⟩

/-- C5: a subset argument `a-b` with `a > b` has its bounds swapped by the
subset branch, and across the whole option loop the range handed to the
conversion engine always satisfies `gmin ≤ gmax` (it starts with
32 ≤ 126). -/
theorem claim_C5 :
    (∀ (st : ArgState) (next : String) (rest : List String) (a b : Nat) (r1 r2 : List Char),
        firstIsDigit next = true →
        strtoul10 next.data = (a, '-' :: r1) →
        strtoul10 r1 = (b, r2) →
        b < a → a < 4294967296 →
        subsetStep st ("-s") (next :: rest) 0 =
          some ({ st with gmin := b, gmax := a }, next, 1)) ∧
    (∀ (args : List String) (st st' : ArgState),
        st.gmin ≤ st.gmax → procArgs st args = some (.done st') →
        st'.gmin ≤ st'.gmax) := by
  constructor
  · intro st next rest a b r1 r2 hd hp hq hba ha
    have ha' : a % 4294967296 = a := Nat.mod_eq_of_lt ha
    have hb' : b % 4294967296 = b := Nat.mod_eq_of_lt (Nat.lt_trans hba ha)
    simp [subsetStep, hd, hp, hq, ha', hb', hba,
      (by decide : arg_is ("-s") ("-s") ("subset") = true)]
  · intro args st st' hle h
    exact (procArgsF_out args.length args st st' (Nat.le_refl _) h).2.2.2.1 hle

/-- Witness for C5: the subset argument `9-3` produces the swapped,
normalized range 3-9, and the loop invariant holds on a concrete run. -/
theorem claim_C5_witness :
    (subsetStep initState ("-s") (("9-3") :: [("f.bdf")]) 0 =
        some ({ initState with gmin := 3, gmax := 9 }, ("9-3"), 1)) ∧
      initState.gmin ≤ initState.gmax :=
  ⟨claim_C5.1 initState ("9-3") [("f.bdf")] 9 3 (['3']) [] (by decide) (by decide)
      (by decide) (by decide) (by decide),
    claim_C5.2 [("f.bdf")] initState initState (by decide) rfl⟩

/-- C6: a command line that requests neither a subset nor the all mode
leaves the filtering range at the printable-ASCII default, 32 to 126
inclusive. -/
theorem claim_C6 (args : List String) (st' : ArgState)
    (hex : ∀ x ∈ args, x ≠ ("-s") ∧ x ≠ ("subset") ∧ x ≠ ("-a") ∧ x ≠ ("all"))
    (h : procArgs initState args = some (.done st')) :
    st'.gmin = 32 ∧ st'.gmax = 126 :=
  (procArgsF_out args.length args initState st' (Nat.le_refl _) h).2.2.2.2.1 hex

/-- Witness for C6 on the command line `f.bdf`. -/
theorem claim_C6_witness :
    initState.gmin = 32 ∧ initState.gmax = 126 :=
  claim_C6 [("f.bdf")] initState (by decide) rfl

/-- C7: a command line that requests the all mode (the option `all`,
with no conflicting subset request and no display option that could
swallow the word `all` as its address argument) makes the range passed to
conversion the full unsigned span 0 to 4294967295. -/
theorem claim_C7 (args : List String) (st' : ArgState)
    (hmem : ("all") ∈ args)
    (hex : ∀ x ∈ args, x ≠ ("-s") ∧ x ≠ ("subset") ∧ x ≠ ("-d") ∧ x ≠ ("display"))
    (h : procArgs initState args = some (.done st')) :
    st'.gmin = 0 ∧ st'.gmax = 4294967295 :=
  (procArgsF_out args.length args initState st' (Nat.le_refl _) h).2.2.2.2.2.2 ⟨hmem, hex⟩

/-- Witness for C7 on the command line `all f.bdf`. -/
theorem claim_C7_witness :
    ({ initState with gmin := 0, gmax := 4294967295 } : ArgState).gmin = 0 ∧
      ({ initState with gmin := 0, gmax := 4294967295 } : ArgState).gmax = 4294967295 :=
  claim_C7 [("all"), ("f.bdf")] { initState with gmin := 0, gmax := 4294967295 }
    (by decide) (by decide) rfl

/-- C8: `bdf_convert` runs to completion before any output is produced:
in every trace of `main`, the conversion-completion event is at position
0 and every output event (display initialisation, font upload, header
text, preview) sits strictly after it. -/
theorem claim_C8 (conv : Option bdfe_t) (st : ArgState) (i2cOk : Bool) (n : Nat) (e : Ev)
    (hget : (mainRun conv st i2cOk).2.get? n = some e) (hout : isOutput e = true) :
    (mainRun conv st i2cOk).2.get? 0 = some Ev.convertDone ∧ 0 < n := by
  have h0 : (mainRun conv st i2cOk).2.get? 0 = some Ev.convertDone := by
    rcases conv with _ | f
    · rfl
    · simp only [mainRun]
      split
      · rfl
      · split <;> rfl
  refine ⟨h0, ?_⟩
  cases n with
  | zero =>
    rw [h0] at hget
    injection hget with hget
    rw [← hget] at hout
    exact absurd hout (by decide)
  | succ m => exact Nat.succ_pos m

/-- Witness for C8: with a converted font, display mode on and the bus
available, the display-initialisation output sits at position 2, after
the completed conversion at position 0. -/
theorem claim_C8_witness :
    (mainRun (some ⟨8, 8, 2, [1, 2]⟩) { initState with flags := { display := true } }
          true).2.get? 0 = some Ev.convertDone ∧ 0 < 2 :=
  claim_C8 (some ⟨8, 8, 2, [1, 2]⟩) { initState with flags := { display := true } }
    true 2 Ev.displayInit rfl rfl

/-- C9: the Flip transform — reversing the bit order inside every packed
byte — is self-inverse on every glyph buffer of bytes. -/
theorem claim_C9 (buf : List Nat) (hb : ∀ b ∈ buf, b < 256) :
    flipGlyph (flipGlyph buf) = buf := by
  induction buf with
  | nil => rfl
  | cons b bs ih =>
    have hb1 : b < 256 := hb b (List.mem_cons_self _ _)
    have hbs : ∀ x ∈ bs, x < 256 := fun x hx => hb x (List.mem_cons_of_mem _ hx)
    simp only [flipGlyph, List.map_cons]
    rw [revByte_invol b hb1]
    have := ih hbs
    simp only [flipGlyph] at this
    rw [this]

/-- Witness for C9 on the glyph buffer 7E 00 FF. -/
theorem claim_C9_witness :
    (∀ b ∈ [126, 0, 255], b < 256) ∧ flipGlyph (flipGlyph [126, 0, 255]) = [126, 0, 255] :=
  ⟨by decide, claim_C9 [126, 0, 255] (by decide)⟩

example : procArgs initState [("-l"), ("x")] =
    some (.done { initState with flags := { gpl := true, droplast := true } }) := by rfl

example : procArgs initState [("-a"), ("5"), ("x")] =
    some (.done { initState with ascender := 5 }) := by rfl

example : procArgs initState [("-a"), ("x")] =
    some (.done { initState with gmin := 0, gmax := 4294967295 }) := by rfl

example : procArgs initState [("-s"), ("9-3"), ("x")] =
    some (.done { initState with gmin := 3, gmax := 9 }) := by rfl

example : procArgs initState [("all"), ("x")] =
    some (.done { initState with gmin := 0, gmax := 4294967295 }) := by rfl

example : procArgs initState [("-d"), ("3D"), ("x")] =
    some (.done { initState with flags := { display := true }, i2c_address := 61 }) := by rfl
